import Mathlib

set_option linter.unusedSectionVars false
set_option linter.unusedVariables false

/-!
Verification of the quill backend staging structures
(`include/quill/backend/TransitEventBuffer.h`): the `TransitEventBuffer`
single-reader/single-writer growable ring buffer and the
`FormatBufferPool` scratch-buffer pool.  Machine `size_t` counters are
modelled as `Nat` (the positions are monotone, so no wraparound occurs in
the states the theorems talk about); the storage array is a `List`; the
index masking `pos & mask` is kept literally as `pos &&& mask`.
-/

namespace Quill

/-- Modelled from the spec: `next_power_of_two` lives in
`quill/core/MathUtilities.h`, which is not part of the excerpt.  The spec
says it "returns the smallest power of two ≥ n (n ≥ 1)".  Implemented by
repeated doubling starting from 1; `n` steps of fuel always suffice since
`n < 2 ^ n`. -/
def npt_go (n : Nat) : Nat → Nat → Nat
  | 0, acc => acc
  | fuel + 1, acc => if n ≤ acc then acc else npt_go n fuel (2 * acc)

/-- Modelled from the spec: smallest power of two that is ≥ `n` (for
`n = 0` the result is 1, the smallest power of two). -/
def next_power_of_two (n : Nat) : Nat := npt_go n n 1

theorem npt_go_ge_acc (n : Nat) : ∀ fuel acc, acc ≤ npt_go n fuel acc := by
  intro fuel
  induction fuel with
  | zero => intro acc; exact Nat.le_refl _
  | succ f ih =>
    intro acc
    simp only [npt_go]
    split
    · exact Nat.le_refl _
    · exact Nat.le_trans (Nat.le_mul_of_pos_left acc (by norm_num)) (ih (2 * acc))

theorem npt_go_ge (n : Nat) :
    ∀ fuel acc, n ≤ acc * 2 ^ fuel → n ≤ npt_go n fuel acc := by
  intro fuel
  induction fuel with
  | zero => intro acc h; simpa using h
  | succ f ih =>
    intro acc h
    simp only [npt_go]
    split
    · assumption
    · refine ih (2 * acc) ?_
      have hre : 2 * acc * 2 ^ f = acc * 2 ^ (f + 1) := by ring
      rw [hre]; exact h

theorem npt_go_pow2 (n : Nat) :
    ∀ fuel j, ∃ k, npt_go n fuel (2 ^ j) = 2 ^ k := by
  intro fuel
  induction fuel with
  | zero => intro j; exact ⟨j, rfl⟩
  | succ f ih =>
    intro j
    simp only [npt_go]
    split
    · exact ⟨j, rfl⟩
    · have h2 : 2 * 2 ^ j = 2 ^ (j + 1) := by ring
      rw [h2]
      exact ih (j + 1)

theorem npt_go_le_pow (n : Nat) :
    ∀ fuel i j, n ≤ 2 ^ j → i ≤ j → npt_go n fuel (2 ^ i) ≤ 2 ^ j := by
  intro fuel
  induction fuel with
  | zero =>
    intro i j _ hij
    exact Nat.pow_le_pow_right (by norm_num) hij
  | succ f ih =>
    intro i j hn hij
    simp only [npt_go]
    split
    · exact Nat.pow_le_pow_right (by norm_num) hij
    · rename_i hlt
      have hi : i < j := by
        by_contra hc
        have : i = j := Nat.le_antisymm hij (Nat.le_of_not_lt hc)
        subst this
        exact hlt hn
      have h2 : 2 * 2 ^ i = 2 ^ (i + 1) := by ring
      rw [h2]
      exact ih (i + 1) j hn hi

theorem le_next_power_of_two (n : Nat) : n ≤ next_power_of_two n := by
  have h : n ≤ 1 * 2 ^ n := by
    have := Nat.lt_two_pow n
    omega
  exact npt_go_ge n n 1 h

theorem next_power_of_two_pow2 (n : Nat) : ∃ k, next_power_of_two n = 2 ^ k := by
  have h : (1 : Nat) = 2 ^ 0 := rfl
  unfold next_power_of_two
  rw [h]
  exact npt_go_pow2 n n 0

theorem next_power_of_two_le {n j : Nat} (h : n ≤ 2 ^ j) :
    next_power_of_two n ≤ 2 ^ j := by
  have h1 : (1 : Nat) = 2 ^ 0 := rfl
  unfold next_power_of_two
  rw [h1]
  exact npt_go_le_pow n n 0 j h (Nat.zero_le j)

theorem one_le_next_power_of_two (n : Nat) : 1 ≤ next_power_of_two n :=
  npt_go_ge_acc n n 1

/-- State of `detail::TransitEventBuffer`, generic over the stored event
type (the C++ `TransitEvent` payload is opaque to this component). -/
structure TransitEventBuffer (α : Type) where
  initial_capacity : Nat
  capacity : Nat
  storage : List α
  last_capacity_check : Nat
  max_size : Nat
  mask : Nat
  reader_pos : Nat
  writer_pos : Nat
  shrink_requested : Bool
deriving DecidableEq, Repr

/-- Constructor `TransitEventBuffer::TransitEventBuffer(size_t initial_capacity)`:
rounds the request up to a power of two, allocates default-constructed
storage, zeroes every counter. -/
def mkBuffer (α : Type) [Inhabited α] (initial_capacity : Nat) :
    TransitEventBuffer α :=
  let c := next_power_of_two initial_capacity
  { initial_capacity := c
    capacity := c
    storage := List.replicate c default
    last_capacity_check := 0
    max_size := 0
    mask := c - 1
    reader_pos := 0
    writer_pos := 0
    shrink_requested := false }

namespace TransitEventBuffer

variable {α : Type} [Inhabited α]

/-- Source `size()`: `_writer_pos - _reader_pos`. -/
def size (s : TransitEventBuffer α) : Nat := s.writer_pos - s.reader_pos

/-- Source `empty()`: `_reader_pos == _writer_pos`. -/
def empty (s : TransitEventBuffer α) : Bool := s.reader_pos == s.writer_pos

/-- Source `front()`: `nullptr` when empty, otherwise the element at
`_reader_pos & _mask`. -/
def front (s : TransitEventBuffer α) : Option α :=
  if s.reader_pos = s.writer_pos then none
  else some (s.storage.getD (s.reader_pos &&& s.mask) default)

/-- Source `pop_front()`: `++_reader_pos` (no emptiness check in the source). -/
def pop_front (s : TransitEventBuffer α) : TransitEventBuffer α :=
  { s with reader_pos := s.reader_pos + 1 }

/-- Debug-build semantics of `pop_front()`.  The source body is exactly
`++_reader_pos;` and contains no assertion, so this checked variant never
fails. -/
def pop_front_checked (s : TransitEventBuffer α) :
    Option (TransitEventBuffer α) :=
  some (pop_front s)

/-- Source `_expand()`: double the capacity, move the `size()` live elements from
their wrapped positions `(_reader_pos + i) & _mask` to contiguous
positions of a freshly default-constructed array, renormalize the
positions, reset the decay timer (`_last_capacity_check = 0`).  Note the
source does not reset `_max_size` here. -/
def expandStep (s : TransitEventBuffer α) : TransitEventBuffer α :=
  let new_capacity := s.capacity * 2
  let current_size := s.size
  { s with
    storage := (List.range new_capacity).map
      (fun i => if i < current_size
        then s.storage.getD ((s.reader_pos + i) &&& s.mask) default
        else default)
    capacity := new_capacity
    mask := new_capacity - 1
    writer_pos := current_size
    reader_pos := 0
    last_capacity_check := 0 }

/-- Source `back()` state effect: expands when full.  (The returned pointer
designates the slot `_writer_pos & _mask` of the resulting state; the
caller writes it via `set_back` and commits with `push_back`.) -/
def back (s : TransitEventBuffer α) : TransitEventBuffer α :=
  if s.capacity = s.size then expandStep s else s

/-- Writing an event through the pointer returned by `back()`. -/
def set_back (s : TransitEventBuffer α) (v : α) : TransitEventBuffer α :=
  { s with storage := s.storage.set (s.writer_pos &&& s.mask) v }

/-- Source `push_back()`: `++_writer_pos`. -/
def push_back (s : TransitEventBuffer α) : TransitEventBuffer α :=
  { s with writer_pos := s.writer_pos + 1 }

/-- One producer step: `back()` (with its possible expansion), write the
event into the returned slot, `push_back()`. -/
def emplace (s : TransitEventBuffer α) (v : α) : TransitEventBuffer α :=
  push_back (set_back (back s) v)

/-- Source `update_size(ts, decay_period)` with `ts` in nanoseconds and
`decay_period` in milliseconds (the source compares
`ts - _last_capacity_check <= decay_period` after the implicit
`chrono` conversion of milliseconds to nanoseconds, hence the
`* 1000000`).  `Nat` subtraction mirrors the `int64` duration compare:
for `ts ≤ last` both sides yield a value `≤ decay`, taking the same
branch. -/
def update_size (s : TransitEventBuffer α) (ts decay_period : Nat) :
    TransitEventBuffer α :=
  if decay_period = 0 then s
  else if s.capacity = s.initial_capacity then s
  else
    let current_size := s.size
    let previous_capacity := s.capacity >>> 1
    if previous_capacity < current_size then
      { s with max_size := 0, last_capacity_check := 0 }
    else
      let m := max s.max_size current_size
      if s.last_capacity_check = 0 then
        { s with max_size := m, last_capacity_check := ts }
      else if ts - s.last_capacity_check ≤ decay_period * 1000000 then
        { s with max_size := m }
      else
        let new_capacity := next_power_of_two m
        { s with
          storage := (List.range new_capacity).map
            (fun i => if i < current_size
              then s.storage.getD ((s.reader_pos + i) &&& s.mask) default
              else default)
          capacity := new_capacity
          mask := new_capacity - 1
          writer_pos := current_size
          reader_pos := 0
          last_capacity_check := 0
          max_size := 0 }

/-- Source `request_shrink()`: sets the sticky flag. -/
def request_shrink (s : TransitEventBuffer α) : TransitEventBuffer α :=
  { s with shrink_requested := true }

/-- Source `try_shrink()`: only when a shrink was requested and the buffer is
empty; reallocates at `_initial_capacity` only when the current capacity
is strictly larger (positions are reset only in that branch); the flag is
cleared in either case. -/
def try_shrink (s : TransitEventBuffer α) : TransitEventBuffer α :=
  if s.shrink_requested = true ∧ s.reader_pos = s.writer_pos then
    if s.initial_capacity < s.capacity then
      { s with
        storage := List.replicate s.initial_capacity default
        capacity := s.initial_capacity
        mask := s.initial_capacity - 1
        writer_pos := 0
        reader_pos := 0
        shrink_requested := false }
    else { s with shrink_requested := false }
  else s

end TransitEventBuffer

/-- State of `detail::FormatBufferPool`, generic over the scratch-buffer
type `β` (`TransitEvent::FormatBuffer` is opaque to this component; it
only exposes a `size()` query, passed in as `bsize`).  A slot holds
`none` when its `unique_ptr` is null. -/
structure FormatBufferPool (β : Type) where
  capacity : Nat
  storage : List (Option β)
  mask : Nat
  reader_pos : Nat
  writer_pos : Nat
deriving DecidableEq, Repr

/-- Constructor `FormatBufferPool::FormatBufferPool(size_t initial_capacity)`. -/
def mkPool (β : Type) (initial_capacity : Nat) : FormatBufferPool β :=
  let c := next_power_of_two initial_capacity
  { capacity := c
    storage := List.replicate c none
    mask := c - 1
    reader_pos := 0
    writer_pos := 0 }

namespace FormatBufferPool

variable {β : Type}

/-- Source `size()`: `_writer_pos - _reader_pos`. -/
def size (p : FormatBufferPool β) : Nat := p.writer_pos - p.reader_pos

/-- Source `empty()`: `_reader_pos == _writer_pos`. -/
def empty (p : FormatBufferPool β) : Bool := p.reader_pos == p.writer_pos

/-- Source `return_buffer(buffer)` (release semantics, after the assert): stores
the buffer back into the slot `_reader_pos & _mask` only when
`buffer->size() > 10 * 1024`, otherwise drops it; always advances
`_reader_pos`. -/
def return_buffer (bsize : β → Nat) (p : FormatBufferPool β) (b : β) :
    FormatBufferPool β :=
  let st := if 10 * 1024 < bsize b
    then p.storage.set (p.reader_pos &&& p.mask) (some b)
    else p.storage
  { p with storage := st, reader_pos := p.reader_pos + 1 }

/-- Debug-build semantics of `return_buffer`: the source body starts with
`assert(_reader_pos != _writer_pos);`, so the checked variant fails
exactly when that condition is violated. -/
def return_buffer_checked (bsize : β → Nat) (p : FormatBufferPool β)
    (b : β) : Option (FormatBufferPool β) :=
  if p.reader_pos = p.writer_pos then none
  else some (return_buffer bsize p b)

/-- Source `FormatBufferPool::_expand()`: same copy-and-renormalize algorithm as
the staging buffer, over nullable slots. -/
def poolExpand (p : FormatBufferPool β) : FormatBufferPool β :=
  let new_capacity := p.capacity * 2
  let current_size := p.size
  { p with
    storage := (List.range new_capacity).map
      (fun i => if i < current_size
        then p.storage.getD ((p.reader_pos + i) &&& p.mask) none
        else none)
    capacity := new_capacity
    mask := new_capacity - 1
    writer_pos := current_size
    reader_pos := 0 }

/-- Source `borrow_buffer()`: expand when full, move the slot's buffer out
(leaving the slot null), advance `_writer_pos`.  The first component is
`some b` when the retained buffer `b` is handed out and `none` when the
slot was null and a fresh buffer is allocated for the caller. -/
def borrow_buffer (p : FormatBufferPool β) :
    Option β × FormatBufferPool β :=
  let q := if p.capacity = size p then poolExpand p else p
  let j := q.writer_pos &&& q.mask
  (q.storage.getD j none,
    { q with storage := q.storage.set j none, writer_pos := q.writer_pos + 1 })

end FormatBufferPool

namespace TransitEventBuffer

variable {α : Type} [Inhabited α]

/-- One public mutating operation of the staging ring buffer. -/
inductive Op (α : Type) where
  | emplace (v : α)
  | pop
  | upd (ts decay_period : Nat)
  | req
  | shr
deriving DecidableEq, Repr

/-- Apply a public operation to a state. -/
def applyOp (s : TransitEventBuffer α) : Op α → TransitEventBuffer α
  | .emplace v => emplace s v
  | .pop => pop_front s
  | .upd ts d => update_size s ts d
  | .req => request_shrink s
  | .shr => try_shrink s

/-- Stated precondition of a public operation: `pop_front` only on a
non-empty buffer (guarded by a successful `front()`); everything else is
unconditional. -/
def okOp (s : TransitEventBuffer α) : Op α → Prop
  | .pop => s.reader_pos ≠ s.writer_pos
  | _ => True

instance (s : TransitEventBuffer α) (o : Op α) : Decidable (okOp s o) := by
  cases o <;> simp only [okOp] <;> infer_instance

/-- Run a list of operations left to right. -/
def runOps (s : TransitEventBuffer α) : List (Op α) → TransitEventBuffer α
  | [] => s
  | o :: os => runOps (applyOp s o) os

/-- All preconditions hold along a run. -/
def okRun (s : TransitEventBuffer α) : List (Op α) → Prop
  | [] => True
  | o :: os => okOp s o ∧ okRun (applyOp s o) os

instance (s : TransitEventBuffer α) : (os : List (Op α)) →
    Decidable (okRun s os)
  | [] => .isTrue trivial
  | o :: os =>
    have : Decidable (okRun (applyOp s o) os) :=
      instDecidableOkRun (applyOp s o) os
    instDecidableAnd

/-- Reachability by the public operations under their stated
preconditions. -/
inductive Reach : TransitEventBuffer α → TransitEventBuffer α → Prop where
  | refl (s : TransitEventBuffer α) : Reach s s
  | step {s t : TransitEventBuffer α} (o : Op α) :
      Reach s t → okOp t o → Reach s (applyOp t o)

theorem reach_runOps (s : TransitEventBuffer α) :
    ∀ os : List (Op α), okRun s os → Reach s (runOps s os) := by
  have general : ∀ (os : List (Op α)) (s t : TransitEventBuffer α),
      Reach s t → okRun t os → Reach s (runOps t os) := by
    intro os
    induction os with
    | nil => intro s t h _; exact h
    | cons o os ih =>
      intro s t h hok
      exact ih s (applyOp t o) (Reach.step o h hok.1) hok.2
  intro os hok
  exact general os s s (Reach.refl s) hok

end TransitEventBuffer

/-- Evaluation of `getD` on a tabulated list. -/
theorem getD_range_map {γ : Type} (n : Nat) (f : Nat → γ) (i : Nat) (d : γ) :
    ((List.range n).map f).getD i d = if i < n then f i else d := by
  rcases Nat.lt_or_ge i n with h | h
  · simp [List.getD_eq_getElem?_getD, List.getElem?_range h, h]
  · have hlen : ((List.range n).map f).length ≤ i := by simpa using h
    simp [List.getD_eq_getElem?_getD, List.getElem?_eq_none hlen,
      Nat.not_lt.mpr h]

/-- Evaluation of `getD` after `set` at the written index. -/
theorem getD_set_self {γ : Type} (l : List γ) (i : Nat) (v d : γ)
    (h : i < l.length) : (l.set i v).getD i d = v := by
  simp [List.getD_eq_getElem?_getD, List.getElem?_set_self h]

/-- Evaluation of `getD` after `set` at another index. -/
theorem getD_set_ne {γ : Type} (l : List γ) (i j : Nat) (v d : γ)
    (h : i ≠ j) : (l.set i v).getD j d = l.getD j d := by
  simp [List.getD_eq_getElem?_getD, List.getElem?_set_ne h]

namespace TransitEventBuffer

variable {α : Type} [Inhabited α]

/-- Structural well-formedness of a staging-buffer state, established by
the constructor and preserved by every public operation. -/
def WF (s : TransitEventBuffer α) : Prop :=
  (∃ k, s.capacity = 2 ^ k) ∧
  (∃ j, s.initial_capacity = 2 ^ j) ∧
  s.mask = s.capacity - 1 ∧
  s.storage.length = s.capacity ∧
  s.reader_pos ≤ s.writer_pos ∧
  s.size ≤ s.capacity

/-- The live contents in logical (FIFO) order: the element `i` positions
past the reader, for `i < size`. -/
def toList (s : TransitEventBuffer α) : List α :=
  (List.range s.size).map
    (fun i => s.storage.getD ((s.reader_pos + i) &&& s.mask) default)

theorem length_toList (s : TransitEventBuffer α) :
    (toList s).length = s.size := by
  simp [toList]

theorem capacity_pos {s : TransitEventBuffer α} (h : WF s) : 0 < s.capacity := by
  obtain ⟨⟨k, hk⟩, -⟩ := h
  rw [hk]
  exact Nat.pos_pow_of_pos k (by norm_num)

theorem mask_eq_mod {s : TransitEventBuffer α} (h : WF s) (p : Nat) :
    p &&& s.mask = p % s.capacity := by
  obtain ⟨⟨k, hk⟩, -, hm, -⟩ := h
  rw [hm, hk]
  exact Nat.and_pow_two_sub_one_eq_mod p k

theorem wf_mkBuffer (c : Nat) : WF (mkBuffer α c) := by
  obtain ⟨k, hk⟩ := next_power_of_two_pow2 c
  exact ⟨⟨k, hk⟩, ⟨k, hk⟩, rfl, by simp [mkBuffer], Nat.le_refl _, Nat.zero_le _⟩

theorem toList_mkBuffer (c : Nat) : toList (mkBuffer α c) = [] := by
  simp [toList, mkBuffer, size]

theorem size_expandStep (s : TransitEventBuffer α) :
    (expandStep s).size = s.size := by
  simp [expandStep, size]

theorem wf_expandStep {s : TransitEventBuffer α} (h : WF s) :
    WF (expandStep s) := by
  obtain ⟨⟨k, hk⟩, hinit, hm, hlen, hrw, hsz⟩ := h
  refine ⟨⟨k + 1, ?_⟩, hinit, rfl, ?_, ?_, ?_⟩
  · simp [expandStep, hk, Nat.pow_succ]
  · simp [expandStep]
  · simp [expandStep, size]
  · rw [size_expandStep]
    show s.size ≤ s.capacity * 2
    omega

theorem toList_expandStep {s : TransitEventBuffer α} (h : WF s) :
    toList (expandStep s) = toList s := by
  have hcap := capacity_pos h
  unfold toList
  rw [size_expandStep]
  refine List.map_congr_left ?_
  intro i hi
  rw [List.mem_range] at hi
  have hwrap : ∀ p : Nat, p &&& (expandStep s).mask = p % (s.capacity * 2) := by
    intro p
    exact mask_eq_mod (wf_expandStep h) p
  show (expandStep s).storage.getD (((expandStep s).reader_pos + i) &&&
      (expandStep s).mask) default = _
  rw [hwrap]
  have hr0 : (expandStep s).reader_pos = 0 := rfl
  rw [hr0]
  have hilt : i < s.capacity * 2 := by
    have := h.2.2.2.2.2
    omega
  have hmodi : (0 + i) % (s.capacity * 2) = i := by
    rw [Nat.zero_add]
    exact Nat.mod_eq_of_lt hilt
  rw [hmodi]
  have hst : (expandStep s).storage = (List.range (s.capacity * 2)).map
      (fun j => if j < s.size
        then s.storage.getD ((s.reader_pos + j) &&& s.mask) default
        else default) := rfl
  rw [hst, getD_range_map]
  simp [hilt, hi]

theorem writer_eq_add_size {s : TransitEventBuffer α} (h : WF s) :
    s.writer_pos = s.reader_pos + s.size := by
  have := h.2.2.2.2.1
  simp only [size]
  omega

theorem back_wf {s : TransitEventBuffer α} (h : WF s) : WF (back s) := by
  unfold back
  split
  · exact wf_expandStep h
  · exact h

theorem back_toList {s : TransitEventBuffer α} (h : WF s) :
    toList (back s) = toList s := by
  unfold back
  split
  · exact toList_expandStep h
  · rfl

theorem back_not_full {s : TransitEventBuffer α} (h : WF s) :
    (back s).size < (back s).capacity := by
  have hcap := capacity_pos h
  unfold back
  split
  · rename_i hfull
    rw [size_expandStep]
    show s.size < s.capacity * 2
    omega
  · rename_i hne
    have := h.2.2.2.2.2
    omega

/-- Writing through the `back()` pointer does not change any of the live
logical contents (the write slot is distinct from every occupied slot
because the buffer is not full). -/
theorem set_back_toList {s : TransitEventBuffer α} (h : WF s)
    (hroom : s.size < s.capacity) (v : α) :
    toList (set_back s v) = toList s := by
  have hsz := h.2.2.2.2.2
  unfold toList
  refine List.map_congr_left ?_
  intro i hi
  rw [List.mem_range] at hi
  have hi' : i < s.size := hi
  show (s.storage.set (s.writer_pos &&& s.mask) v).getD
      ((s.reader_pos + i) &&& s.mask) default =
    s.storage.getD ((s.reader_pos + i) &&& s.mask) default
  refine getD_set_ne _ _ _ _ _ ?_
  rw [mask_eq_mod h, mask_eq_mod h, writer_eq_add_size h]
  intro hcontra
  have hi_lt : i < s.capacity := by omega
  have hmodeq : s.size % s.capacity = i % s.capacity :=
    Nat.ModEq.add_left_cancel' s.reader_pos hcontra
  rw [Nat.mod_eq_of_lt hroom, Nat.mod_eq_of_lt hi_lt] at hmodeq
  omega

theorem set_back_wf {s : TransitEventBuffer α} (h : WF s) (v : α) :
    WF (set_back s v) := by
  obtain ⟨hc, hi, hm, hlen, hrw, hsz⟩ := h
  exact ⟨hc, hi, hm, by simp [set_back, hlen], hrw, hsz⟩

theorem set_back_slot {s : TransitEventBuffer α} (h : WF s) (v : α) :
    (set_back s v).storage.getD (s.writer_pos &&& s.mask) default = v := by
  have hcap := capacity_pos h
  have hlen := h.2.2.2.1
  unfold set_back
  refine getD_set_self _ _ _ _ ?_
  rw [mask_eq_mod h, hlen]
  exact Nat.mod_lt _ hcap

theorem push_back_wf {s : TransitEventBuffer α} (h : WF s)
    (hroom : s.size < s.capacity) : WF (push_back s) := by
  obtain ⟨hc, hi, hm, hlen, hrw, hsz⟩ := h
  refine ⟨hc, hi, hm, hlen, by simp [push_back]; omega, ?_⟩
  simp only [push_back, size] at hroom ⊢
  omega

theorem emplace_wf {s : TransitEventBuffer α} (h : WF s) (v : α) :
    WF (emplace s v) :=
  push_back_wf (set_back_wf (back_wf h) v) (by
    have := back_not_full h
    simpa [set_back, size] using this)

theorem emplace_toList {s : TransitEventBuffer α} (h : WF s) (v : α) :
    toList (emplace s v) = toList s ++ [v] := by
  have hb := back_wf h
  have hroom := back_not_full h
  set t := back s with ht
  have hsize : (push_back (set_back t v)).size = t.size + 1 := by
    simp only [push_back, set_back, size]
    have := hb.2.2.2.2.1
    omega
  show toList (push_back (set_back t v)) = toList s ++ [v]
  rw [← back_toList h, ← ht, ← set_back_toList hb hroom v]
  unfold toList
  rw [hsize]
  have hrs : List.range (t.size + 1) = List.range t.size ++ [t.size] :=
    List.range_succ t.size
  rw [hrs, List.map_append]
  refine congrArg₂ (· ++ ·) rfl ?_
  simp only [List.map_cons, List.map_nil]
  congr 1
  show (set_back t v).storage.getD
      ((t.reader_pos + t.size) &&& t.mask) default = v
  rw [← writer_eq_add_size hb]
  exact set_back_slot hb v

theorem front_eq_head {s : TransitEventBuffer α} (h : WF s) :
    front s = (toList s).head? := by
  rw [List.head?_eq_getElem?]
  unfold front toList
  split
  · rename_i heq
    have hsz : s.size = 0 := by
      simp only [size, heq]
      omega
    rw [hsz]
    simp
  · rename_i hne
    have hsz : 0 < s.size := by
      have := h.2.2.2.2.1
      simp only [size]
      omega
    rw [List.getElem?_map, List.getElem?_range hsz]
    simp

theorem pop_front_wf {s : TransitEventBuffer α} (h : WF s)
    (hne : s.reader_pos ≠ s.writer_pos) : WF (pop_front s) := by
  obtain ⟨hc, hi, hm, hlen, hrw, hsz⟩ := h
  refine ⟨hc, hi, hm, hlen, ?_, ?_⟩
  · simp only [pop_front]
    omega
  · simp only [pop_front, size] at hsz ⊢
    omega

theorem pop_front_toList {s : TransitEventBuffer α} (h : WF s)
    (hne : s.reader_pos ≠ s.writer_pos) :
    toList (pop_front s) = (toList s).tail := by
  have hsz : 0 < s.size := by
    have := h.2.2.2.2.1
    simp only [size]
    omega
  have hsize : (pop_front s).size = s.size - 1 := by
    simp only [pop_front, size]
    omega
  refine List.ext_getElem? ?_
  intro n
  rw [List.getElem?_tail]
  unfold toList
  rw [hsize]
  rcases Nat.lt_or_ge n (s.size - 1) with hlt | hge
  · rw [List.getElem?_map, List.getElem?_map, List.getElem?_range hlt,
      List.getElem?_range (by omega)]
    simp only [Option.map_some']
    have harith : (pop_front s).reader_pos + n = s.reader_pos + (n + 1) := by
      simp only [pop_front]
      omega
    rw [harith]
    rfl
  · rw [List.getElem?_eq_none (by simpa using hge),
      List.getElem?_eq_none (by simp; omega)]

/-- A sequence of `back()`+`push_back()` pairs writing the given
elements. -/
def pushAll (s : TransitEventBuffer α) (l : List α) : TransitEventBuffer α :=
  l.foldl emplace s

/-- A sequence of `n` `front()`+`pop_front()` pairs, recording what each
`front()` observed. -/
def drainList : TransitEventBuffer α → Nat → List (Option α)
  | _, 0 => []
  | s, n + 1 => front s :: drainList (pop_front s) n

theorem pushAll_wf {l : List α} :
    ∀ {s : TransitEventBuffer α}, WF s → WF (pushAll s l) := by
  induction l with
  | nil => intro s h; exact h
  | cons v l ih =>
    intro s h
    exact ih (emplace_wf h v)

theorem pushAll_toList {l : List α} :
    ∀ {s : TransitEventBuffer α}, WF s →
      toList (pushAll s l) = toList s ++ l := by
  induction l with
  | nil => intro s _; simp [pushAll]
  | cons v l ih =>
    intro s h
    show toList (pushAll (emplace s v) l) = toList s ++ (v :: l)
    rw [ih (emplace_wf h v), emplace_toList h v]
    simp

theorem drainList_toList :
    ∀ (n : Nat) (s : TransitEventBuffer α), WF s → s.size = n →
      drainList s n = (toList s).map some := by
  intro n
  induction n with
  | zero =>
    intro s _ hsz
    have : toList s = [] := by
      have := length_toList s
      rw [hsz] at this
      exact List.eq_nil_of_length_eq_zero this
    simp [drainList, this]
  | succ n ih =>
    intro s h hsz
    have hne : s.reader_pos ≠ s.writer_pos := by
      simp only [size] at hsz
      omega
    have hpop : (pop_front s).size = n := by
      simp only [pop_front, size] at hsz ⊢
      omega
    have hlen : (toList s).length = n + 1 := by rw [length_toList, hsz]
    obtain ⟨a, l, hal⟩ : ∃ a l, toList s = a :: l := by
      cases hx : toList s with
      | nil => rw [hx] at hlen; simp at hlen
      | cons a l => exact ⟨a, l, rfl⟩
    show front s :: drainList (pop_front s) n = (toList s).map some
    rw [ih (pop_front s) (pop_front_wf h hne) hpop,
      pop_front_toList h hne, front_eq_head h, hal]
    simp

theorem update_size_zero_decay (s : TransitEventBuffer α) (ts : Nat) :
    update_size s ts 0 = s := by
  simp [update_size]

theorem update_size_at_initial (s : TransitEventBuffer α) (ts d : Nat)
    (hc : s.capacity = s.initial_capacity) : update_size s ts d = s := by
  simp [update_size, hc]

theorem update_size_reset {s : TransitEventBuffer α} {ts d : Nat}
    (hd : d ≠ 0) (hc : s.capacity ≠ s.initial_capacity)
    (hsz : s.capacity >>> 1 < s.size) :
    update_size s ts d = { s with max_size := 0, last_capacity_check := 0 } := by
  simp [update_size, hd, hc, hsz]

theorem update_size_arm {s : TransitEventBuffer α} {ts d : Nat}
    (hd : d ≠ 0) (hc : s.capacity ≠ s.initial_capacity)
    (hsz : ¬ s.capacity >>> 1 < s.size) (hl : s.last_capacity_check = 0) :
    update_size s ts d =
      { s with max_size := max s.max_size s.size, last_capacity_check := ts } := by
  simp [update_size, hd, hc, hsz, hl]

theorem update_size_wait {s : TransitEventBuffer α} {ts d : Nat}
    (hd : d ≠ 0) (hc : s.capacity ≠ s.initial_capacity)
    (hsz : ¬ s.capacity >>> 1 < s.size) (hl : s.last_capacity_check ≠ 0)
    (hts : ts - s.last_capacity_check ≤ d * 1000000) :
    update_size s ts d = { s with max_size := max s.max_size s.size } := by
  simp [update_size, hd, hc, hsz, hl, hts]

theorem update_size_compact {s : TransitEventBuffer α} {ts d : Nat}
    (hd : d ≠ 0) (hc : s.capacity ≠ s.initial_capacity)
    (hsz : ¬ s.capacity >>> 1 < s.size) (hl : s.last_capacity_check ≠ 0)
    (hts : ¬ ts - s.last_capacity_check ≤ d * 1000000) :
    update_size s ts d =
      { s with
        storage := (List.range (next_power_of_two (max s.max_size s.size))).map
          (fun i => if i < s.size
            then s.storage.getD ((s.reader_pos + i) &&& s.mask) default
            else default)
        capacity := next_power_of_two (max s.max_size s.size)
        mask := next_power_of_two (max s.max_size s.size) - 1
        writer_pos := s.size
        reader_pos := 0
        last_capacity_check := 0
        max_size := 0 } := by
  simp [update_size, hd, hc, hsz, hl, hts]

theorem wf_update_size {s : TransitEventBuffer α} (h : WF s) (ts d : Nat) :
    WF (update_size s ts d) := by
  by_cases hd : d = 0
  · rw [hd, update_size_zero_decay]; exact h
  by_cases hc : s.capacity = s.initial_capacity
  · rw [update_size_at_initial s ts d hc]; exact h
  by_cases hsz : s.capacity >>> 1 < s.size
  · rw [update_size_reset hd hc hsz]; exact h
  by_cases hl : s.last_capacity_check = 0
  · rw [update_size_arm hd hc hsz hl]; exact h
  by_cases hts : ts - s.last_capacity_check ≤ d * 1000000
  · rw [update_size_wait hd hc hsz hl hts]; exact h
  rw [update_size_compact hd hc hsz hl hts]
  obtain ⟨k, hk⟩ := next_power_of_two_pow2 (max s.max_size s.size)
  obtain ⟨-, hinit, -, -, -, -⟩ := h
  refine ⟨⟨k, hk⟩, hinit, rfl, by simp, by simp, ?_⟩
  show s.size - 0 ≤ next_power_of_two (max s.max_size s.size)
  have h1 : s.size ≤ max s.max_size s.size := Nat.le_max_right _ _
  have h2 := le_next_power_of_two (max s.max_size s.size)
  omega

theorem wf_request_shrink {s : TransitEventBuffer α} (h : WF s) :
    WF (request_shrink s) := h

theorem wf_try_shrink {s : TransitEventBuffer α} (h : WF s) :
    WF (try_shrink s) := by
  unfold try_shrink
  split
  · split
    · obtain ⟨-, ⟨j, hj⟩, -, -, -, -⟩ := h
      refine ⟨⟨j, hj⟩, ⟨j, hj⟩, rfl, by simp, by simp, ?_⟩
      show 0 - 0 ≤ s.initial_capacity
      exact Nat.zero_le _
    · exact h
  · exact h

theorem wf_applyOp {s : TransitEventBuffer α} (h : WF s) (o : Op α)
    (hok : okOp s o) : WF (applyOp s o) := by
  cases o with
  | emplace v => exact emplace_wf h v
  | pop => exact pop_front_wf h hok
  | upd ts d => exact wf_update_size h ts d
  | req => exact wf_request_shrink h
  | shr => exact wf_try_shrink h

theorem wf_reach {s t : TransitEventBuffer α} (hr : Reach s t) (h : WF s) :
    WF t := by
  induction hr with
  | refl => exact h
  | step o _ hok ih => exact wf_applyOp ih o hok

end TransitEventBuffer

theorem shiftRight_one_eq (n : Nat) : n >>> 1 = n / 2 := by
  rw [Nat.shiftRight_succ_inside]
  rfl

namespace TransitEventBuffer

variable {α : Type} [Inhabited α]

/-- Claim C1: for every sequence of n `back()`+`push_back()` pairs on the
Staging Ring Buffer followed by n `front()`+`pop_front()` pairs, the
elements observed via `front()` are exactly the elements written, in the
same (FIFO) order, regardless of any capacity expansions that occur in
between. -/
theorem claim_C1_fifo_order (c : Nat) (l : List α) :
    drainList (pushAll (mkBuffer α c) l) l.length = l.map some := by
  have h0 := wf_mkBuffer (α := α) c
  have hw := pushAll_wf (l := l) h0
  have ht := pushAll_toList (l := l) h0
  rw [toList_mkBuffer, List.nil_append] at ht
  have hsz : (pushAll (mkBuffer α c) l).size = l.length := by
    rw [← length_toList, ht]
  rw [drainList_toList l.length _ hw hsz, ht]

/-- Claim C2: whenever `back()` is called on a full Staging Ring Buffer
(`size() == capacity()`), the resulting expansion makes the new capacity
exactly twice the old capacity, copies each of the `size()` live elements
from wrapped position `(reader_pos + i) mod old_capacity` to contiguous
position `i` of the new storage, and resets `reader_pos` to 0 and
`writer_pos` to `size()`. -/
theorem claim_C2_expansion (s : TransitEventBuffer α) (k : Nat)
    (hk : s.capacity = 2 ^ k) (hm : s.mask = s.capacity - 1)
    (hfull : s.size = s.capacity) :
    (back s).capacity = 2 * s.capacity ∧
    (∀ i, i < s.size →
      (back s).storage.getD i default =
        s.storage.getD ((s.reader_pos + i) % s.capacity) default) ∧
    (back s).reader_pos = 0 ∧
    (back s).writer_pos = s.size := by
  have hmask : ∀ p : Nat, p &&& s.mask = p % s.capacity := by
    intro p
    rw [hm, hk]
    exact Nat.and_pow_two_sub_one_eq_mod p k
  have hb : back s = expandStep s := by
    unfold back
    rw [if_pos hfull.symm]
  refine ⟨?_, ?_, ?_, ?_⟩
  · rw [hb]
    show s.capacity * 2 = 2 * s.capacity
    ring
  · intro i hi
    rw [hb]
    show ((List.range (s.capacity * 2)).map
        (fun j => if j < s.size
          then s.storage.getD ((s.reader_pos + j) &&& s.mask) default
          else default)).getD i default = _
    rw [getD_range_map]
    have hi2 : i < s.capacity * 2 := by
      rw [hfull] at hi
      omega
    rw [if_pos hi2, if_pos hi, hmask]
  · rw [hb]; rfl
  · rw [hb]; rfl

/-- A concrete full buffer (4 elements in a capacity-4 buffer), used to
exercise the expansion path. -/
def fullBuf4 : TransitEventBuffer Nat := pushAll (mkBuffer Nat 4) [1, 2, 3, 4]

/-- Witness for claim C2 at a concrete full buffer. -/
theorem claim_C2_witness :
    fullBuf4.capacity = 2 ^ 2 ∧
    fullBuf4.mask = fullBuf4.capacity - 1 ∧
    fullBuf4.size = fullBuf4.capacity ∧
    ((back fullBuf4).capacity = 2 * fullBuf4.capacity ∧
      (∀ i, i < fullBuf4.size →
        (back fullBuf4).storage.getD i default =
          fullBuf4.storage.getD
            ((fullBuf4.reader_pos + i) % fullBuf4.capacity) default) ∧
      (back fullBuf4).reader_pos = 0 ∧
      (back fullBuf4).writer_pos = fullBuf4.size) :=
  ⟨by decide, by decide, by decide,
    claim_C2_expansion fullBuf4 2 (by decide) (by decide) (by decide)⟩

/-- Operation trace for the C3 counterexample: grow to capacity 8, drain
to occupancy 2, then let `update_size` compact after a full decay period
(decay 1 ms, timestamps in ns). -/
def c3ops : List (Op Nat) :=
  [Op.emplace 1, Op.emplace 2, Op.emplace 3, Op.emplace 4, Op.emplace 5,
   Op.pop, Op.pop, Op.pop, Op.upd 10 1, Op.upd 2000011 1]

/-- Counterexample to claim C3 as stated: a state reachable from
construction with requested initial capacity 4 whose capacity is 2,
strictly below `next_power_of_two(4) = 4` — the `update_size` compaction
is not bounded below by the initial capacity. -/
theorem claim_C3_cx :
    Reach (mkBuffer Nat 4) (runOps (mkBuffer Nat 4) c3ops) ∧
    (runOps (mkBuffer Nat 4) c3ops).capacity = 2 ∧
    next_power_of_two 4 = 4 ∧
    (runOps (mkBuffer Nat 4) c3ops).capacity < next_power_of_two 4 :=
  ⟨reach_runOps _ c3ops (by decide), by decide, by decide, by decide⟩

/-- Claim C3 as amended: in every reachable state the capacity is a power
of two (but it is not always ≥ the rounded-up requested initial
capacity: the `update_size` compaction can go below it, see the
counterexample). -/
theorem claim_C3_amended (c : Nat) (s : TransitEventBuffer α)
    (hr : Reach (mkBuffer α c) s) :
    ∃ k, s.capacity = 2 ^ k :=
  (wf_reach hr (wf_mkBuffer c)).1

/-- Witness for the amended claim C3. -/
theorem claim_C3_witness :
    Reach (mkBuffer Nat 4)
      (runOps (mkBuffer Nat 4) [Op.emplace 7, Op.emplace 8]) ∧
    ∃ k, (runOps (mkBuffer Nat 4)
      [Op.emplace 7, Op.emplace 8]).capacity = 2 ^ k :=
  ⟨reach_runOps _ _ (by decide),
    claim_C3_amended 4 _ (reach_runOps _ _ (by decide))⟩

/-- Concrete state for the C4 counterexample: capacity 8 above the
initial 4, decay timer armed at 5 ns, peak 3, occupancy 3 ≤ capacity/2. -/
def c4state : TransitEventBuffer Nat :=
  { initial_capacity := 4
    capacity := 8
    storage := List.replicate 8 0
    last_capacity_check := 5
    max_size := 3
    mask := 7
    reader_pos := 0
    writer_pos := 3
    shrink_requested := false }

/-- Counterexample to claim C4 as stated: with exactly one decay period
elapsed (`ts - last = 1 ms`), the elapsed time is "not less than
decay_period", so the claim says the buffer shrinks to
`next_power_of_two(max_size) = 4`; the code's `<=` comparison returns
without resizing and capacity stays 8. -/
theorem claim_C4_cx :
    ((1 : Nat) ≠ 0 ∧
      c4state.capacity ≠ c4state.initial_capacity ∧
      c4state.last_capacity_check ≠ 0 ∧
      c4state.size ≤ c4state.capacity / 2 ∧
      ¬ 1000005 - c4state.last_capacity_check < 1 * 1000000) ∧
    next_power_of_two (max c4state.max_size c4state.size) = 4 ∧
    (update_size c4state 1000005 1).capacity = 8 ∧
    (update_size c4state 1000005 1).storage = c4state.storage := by
  refine ⟨⟨?_, ?_, ?_, ?_, ?_⟩, ?_, ?_, ?_⟩ <;> decide

/-- Claim C4 as amended: under the stated conditions (nonzero decay
period, capacity above initial, timer armed, occupancy at most
capacity/2), `update_size` returns without resizing when AT MOST
`decay_period` has elapsed since the timer was armed (the code compares
with `<=`, not `<`), and when STRICTLY MORE than `decay_period` has
elapsed it shrinks storage to `next_power_of_two(max_size)` (the tracked
peak updated with the current size), copies the live elements in logical
order, resets `reader_pos` to 0 and `writer_pos` to the current size, and
resets the decay timer and peak tracker. -/
theorem claim_C4_amended (s : TransitEventBuffer α) (ts d k : Nat)
    (hd : d ≠ 0) (hc : s.capacity ≠ s.initial_capacity)
    (hl : s.last_capacity_check ≠ 0)
    (hk : s.capacity = 2 ^ k) (hm : s.mask = s.capacity - 1)
    (hsz : s.size ≤ s.capacity / 2) :
    (ts - s.last_capacity_check ≤ d * 1000000 →
      (update_size s ts d).capacity = s.capacity ∧
      (update_size s ts d).storage = s.storage ∧
      (update_size s ts d).reader_pos = s.reader_pos ∧
      (update_size s ts d).writer_pos = s.writer_pos ∧
      (update_size s ts d).max_size = max s.max_size s.size) ∧
    (d * 1000000 < ts - s.last_capacity_check →
      (update_size s ts d).capacity =
        next_power_of_two (max s.max_size s.size) ∧
      (∀ i, i < s.size →
        (update_size s ts d).storage.getD i default =
          s.storage.getD ((s.reader_pos + i) % s.capacity) default) ∧
      (update_size s ts d).reader_pos = 0 ∧
      (update_size s ts d).writer_pos = s.size ∧
      (update_size s ts d).last_capacity_check = 0 ∧
      (update_size s ts d).max_size = 0) := by
  have hmask : ∀ p : Nat, p &&& s.mask = p % s.capacity := by
    intro p
    rw [hm, hk]
    exact Nat.and_pow_two_sub_one_eq_mod p k
  have hns : ¬ s.capacity >>> 1 < s.size := by
    rw [shiftRight_one_eq]
    omega
  constructor
  · intro hts
    rw [update_size_wait hd hc hns hl hts]
    exact ⟨rfl, rfl, rfl, rfl, rfl⟩
  · intro hts
    rw [update_size_compact hd hc hns hl (by omega)]
    refine ⟨rfl, ?_, rfl, rfl, rfl, rfl⟩
    intro i hi
    show ((List.range (next_power_of_two (max s.max_size s.size))).map
        (fun j => if j < s.size
          then s.storage.getD ((s.reader_pos + j) &&& s.mask) default
          else default)).getD i default = _
    rw [getD_range_map]
    have hle : s.size ≤ next_power_of_two (max s.max_size s.size) :=
      Nat.le_trans (Nat.le_max_right _ _)
        (le_next_power_of_two (max s.max_size s.size))
    rw [if_pos (by omega), if_pos hi, hmask]

/-- Witness for the amended claim C4 (both branches at concrete inputs:
wait at `ts = 1000005`, compact at `ts = 1000006`). -/
theorem claim_C4_witness :
    ((update_size c4state 1000005 1).capacity = 8 ∧
      (update_size c4state 1000006 1).capacity = 4) ∧
    (1000005 - c4state.last_capacity_check ≤ 1 * 1000000) ∧
    (1 * 1000000 < 1000006 - c4state.last_capacity_check) :=
  ⟨⟨((claim_C4_amended c4state 1000005 1 3 (by decide) (by decide)
        (by decide) (by decide) (by decide) (by decide)).1
      (by decide)).1.trans (by decide),
    ((claim_C4_amended c4state 1000006 1 3 (by decide) (by decide)
        (by decide) (by decide) (by decide) (by decide)).2
      (by decide)).1.trans (by decide)⟩,
    by decide, by decide⟩

/-- Counterexample to claim C5 as stated: with a shrink requested, the
buffer empty, and capacity already equal to the initial capacity,
`try_shrink` clears the flag but does NOT reset the position counters to
0 (they stay at 1). -/
theorem claim_C5_cx :
    (request_shrink (pop_front (emplace (mkBuffer Nat 4) 7))).shrink_requested =
      true ∧
    (request_shrink (pop_front (emplace (mkBuffer Nat 4) 7))).reader_pos =
      (request_shrink (pop_front (emplace (mkBuffer Nat 4) 7))).writer_pos ∧
    (try_shrink (request_shrink
      (pop_front (emplace (mkBuffer Nat 4) 7)))).reader_pos = 1 ∧
    (try_shrink (request_shrink
      (pop_front (emplace (mkBuffer Nat 4) 7)))).reader_pos ≠ 0 := by
  refine ⟨?_, ?_, ?_, ?_⟩ <;> decide

/-- Claim C5 as amended: `try_shrink()` leaves the buffer unchanged unless
`request_shrink()` was called and the buffer is empty; when both hold it
clears the requested flag, and only if the current capacity exceeds
`initial_capacity` does it also reallocate storage at `initial_capacity`
and reset both position counters to 0 (so after a successful shrink
`capacity() == initial_capacity`); when the capacity does not exceed the
initial capacity, storage, capacity and positions are left unchanged. -/
theorem claim_C5_amended (s : TransitEventBuffer α) :
    (¬ (s.shrink_requested = true ∧ s.reader_pos = s.writer_pos) →
      try_shrink s = s) ∧
    (s.shrink_requested = true → s.reader_pos = s.writer_pos →
      (try_shrink s).shrink_requested = false ∧
      (s.initial_capacity < s.capacity →
        (try_shrink s).capacity = s.initial_capacity ∧
        (try_shrink s).reader_pos = 0 ∧
        (try_shrink s).writer_pos = 0 ∧
        (try_shrink s).storage = List.replicate s.initial_capacity default) ∧
      (¬ s.initial_capacity < s.capacity →
        (try_shrink s).capacity = s.capacity ∧
        (try_shrink s).storage = s.storage ∧
        (try_shrink s).reader_pos = s.reader_pos ∧
        (try_shrink s).writer_pos = s.writer_pos)) := by
  constructor
  · intro hno
    unfold try_shrink
    rw [if_neg hno]
  · intro hreq hempty
    have hyes : s.shrink_requested = true ∧ s.reader_pos = s.writer_pos :=
      ⟨hreq, hempty⟩
    by_cases hcap : s.initial_capacity < s.capacity
    · unfold try_shrink
      rw [if_pos hyes, if_pos hcap]
      exact ⟨rfl, fun _ => ⟨rfl, rfl, rfl, rfl⟩, fun hn => absurd hcap hn⟩
    · unfold try_shrink
      rw [if_pos hyes, if_neg hcap]
      exact ⟨rfl, fun hn => absurd hn hcap, fun _ => ⟨rfl, rfl, rfl, rfl⟩⟩

/-- Concrete state for the C5 witness: shrink requested, empty, capacity
8 above the initial 4. -/
def c5state : TransitEventBuffer Nat :=
  { initial_capacity := 4
    capacity := 8
    storage := List.replicate 8 0
    last_capacity_check := 0
    max_size := 0
    mask := 7
    reader_pos := 3
    writer_pos := 3
    shrink_requested := true }

/-- Witness for the amended claim C5: the successful-shrink branch at a
concrete state. -/
theorem claim_C5_witness :
    c5state.shrink_requested = true ∧
    c5state.reader_pos = c5state.writer_pos ∧
    c5state.initial_capacity < c5state.capacity ∧
    (try_shrink c5state).shrink_requested = false ∧
    (try_shrink c5state).capacity = c5state.initial_capacity ∧
    (try_shrink c5state).reader_pos = 0 :=
  ⟨by decide, by decide, by decide,
    ((claim_C5_amended c5state).2 (by decide) (by decide)).1,
    (((claim_C5_amended c5state).2 (by decide) (by decide)).2.1 (by decide)).1,
    (((claim_C5_amended c5state).2 (by decide) (by decide)).2.1 (by decide)).2.1⟩

/-- Claim C6: `update_size(ts, decay_period)` changes nothing when
`decay_period` is zero or when `capacity` already equals
`initial_capacity`; in particular with `decay_period = 0` the buffer never
shrinks regardless of occupancy history. -/
theorem claim_C6_update_noop (s : TransitEventBuffer α) (ts d : Nat)
    (h : d = 0 ∨ s.capacity = s.initial_capacity) :
    update_size s ts d = s := by
  rcases h with h | h
  · rw [h]
    exact update_size_zero_decay s ts
  · exact update_size_at_initial s ts d h

/-- Witness for claim C6 at a concrete input. -/
theorem claim_C6_witness :
    ((0 : Nat) = 0 ∨ (mkBuffer Nat 4).capacity = (mkBuffer Nat 4).initial_capacity) ∧
    update_size (mkBuffer Nat 4) 999 0 = mkBuffer Nat 4 :=
  ⟨Or.inl rfl, claim_C6_update_noop (mkBuffer Nat 4) 999 0 (Or.inl rfl)⟩

/-- Claim C8 (invariants): after any sequence of the public operations
under their stated preconditions (which includes all properly interleaved
push/pop sequences), `size() = writer_pos - reader_pos`, the positions
never cross, and `size() ≤ capacity()`. -/
theorem claim_C8_size_invariant (c : Nat) (s : TransitEventBuffer α)
    (hr : Reach (mkBuffer α c) s) :
    s.size = s.writer_pos - s.reader_pos ∧
    s.reader_pos ≤ s.writer_pos ∧
    s.size ≤ s.capacity := by
  have h := wf_reach hr (wf_mkBuffer c)
  exact ⟨rfl, h.2.2.2.2.1, h.2.2.2.2.2⟩

/-- Witness for claim C8: a concrete interleaved push/push/pop/push run. -/
theorem claim_C8_witness :
    Reach (mkBuffer Nat 4)
      (runOps (mkBuffer Nat 4)
        [Op.emplace 1, Op.emplace 2, Op.pop, Op.emplace 3]) ∧
    ((runOps (mkBuffer Nat 4)
        [Op.emplace 1, Op.emplace 2, Op.pop, Op.emplace 3]).size =
      (runOps (mkBuffer Nat 4)
        [Op.emplace 1, Op.emplace 2, Op.pop, Op.emplace 3]).writer_pos -
      (runOps (mkBuffer Nat 4)
        [Op.emplace 1, Op.emplace 2, Op.pop, Op.emplace 3]).reader_pos ∧
      (runOps (mkBuffer Nat 4)
        [Op.emplace 1, Op.emplace 2, Op.pop, Op.emplace 3]).reader_pos ≤
      (runOps (mkBuffer Nat 4)
        [Op.emplace 1, Op.emplace 2, Op.pop, Op.emplace 3]).writer_pos ∧
      (runOps (mkBuffer Nat 4)
        [Op.emplace 1, Op.emplace 2, Op.pop, Op.emplace 3]).size ≤
      (runOps (mkBuffer Nat 4)
        [Op.emplace 1, Op.emplace 2, Op.pop, Op.emplace 3]).capacity) :=
  ⟨reach_runOps _ _ (by decide),
    claim_C8_size_invariant 4 _ (reach_runOps _ _ (by decide))⟩

/-- Trace for the C10 counterexample: record a peak of 8 at capacity 16,
drain and shrink back to the initial capacity via `try_shrink` (which
leaves `_max_size = 8` behind), regrow to capacity 8, re-arm the timer,
so the stale peak 8 exceeds capacity/2 = 4 at the next compaction. -/
def c10ops : List (Op Nat) :=
  [Op.emplace 1, Op.emplace 2, Op.emplace 3, Op.emplace 4, Op.emplace 5,
   Op.emplace 6, Op.emplace 7, Op.emplace 8, Op.emplace 9,
   Op.pop, Op.upd 10 1,
   Op.pop, Op.pop, Op.pop, Op.pop, Op.pop, Op.pop, Op.pop, Op.pop,
   Op.req, Op.shr,
   Op.emplace 10, Op.emplace 11, Op.emplace 12, Op.emplace 13, Op.emplace 14,
   Op.pop, Op.pop, Op.upd 20 1]

/-- The reachable state exhibiting the stale peak tracker. -/
def c10state : TransitEventBuffer Nat := runOps (mkBuffer Nat 4) c10ops

/-- Counterexample to claim C10 as stated: a reachable state in which
`update_size(2000021, 1)` reaches its compaction step (nonzero decay
period, capacity 8 above the initial 4, occupancy 3 not above
capacity/2, timer armed, more than one decay period elapsed) while the
tracked peak is 8 > capacity/2 = 4, and the "shrink" resizes to
`next_power_of_two(8) = 8`, equal to the current capacity — the
resize-to-equal-or-larger case is reachable. -/
theorem claim_C10_cx :
    Reach (mkBuffer Nat 4) c10state ∧
    ((1 : Nat) ≠ 0 ∧
      c10state.capacity ≠ c10state.initial_capacity ∧
      ¬ c10state.capacity >>> 1 < c10state.size ∧
      c10state.last_capacity_check ≠ 0 ∧
      ¬ 2000021 - c10state.last_capacity_check ≤ 1 * 1000000) ∧
    c10state.capacity / 2 < max c10state.max_size c10state.size ∧
    (update_size c10state 2000021 1).capacity = c10state.capacity :=
  ⟨reach_runOps _ c10ops (by decide),
    ⟨by decide, by decide, by decide, by decide, by decide⟩,
    by decide, by decide⟩

/-- Claim C10 as amended: the compaction step of `update_size` can be
reached with the tracked peak above capacity/2 (the peak tracker survives
`try_shrink`, see the counterexample), so the resize-to-equal-or-larger
case is reachable; but whenever the tracked peak including the current
size is at most capacity/2 (with capacity a power of two of exponent at
least 1), the new capacity `next_power_of_two(max_size)` is strictly
smaller than the current capacity. -/
theorem claim_C10_amended (s : TransitEventBuffer α) (ts d k : Nat)
    (hd : d ≠ 0) (hc : s.capacity ≠ s.initial_capacity)
    (hl : s.last_capacity_check ≠ 0)
    (hk : s.capacity = 2 ^ k) (hk1 : 1 ≤ k)
    (hts : d * 1000000 < ts - s.last_capacity_check)
    (hmx : max s.max_size s.size ≤ s.capacity / 2) :
    (update_size s ts d).capacity < s.capacity := by
  have hns : ¬ s.capacity >>> 1 < s.size := by
    rw [shiftRight_one_eq]
    have := Nat.le_max_right s.max_size s.size
    omega
  rw [update_size_compact hd hc hns hl (by omega)]
  show next_power_of_two (max s.max_size s.size) < s.capacity
  obtain ⟨k', hk'⟩ : ∃ k', k = k' + 1 := ⟨k - 1, by omega⟩
  have hhalf : s.capacity / 2 = 2 ^ k' := by
    rw [hk, hk', Nat.pow_succ]
    omega
  have hle : next_power_of_two (max s.max_size s.size) ≤ 2 ^ k' :=
    next_power_of_two_le (by omega)
  have hlt : (2 : Nat) ^ k' < 2 ^ (k' + 1) :=
    Nat.pow_lt_pow_right (by norm_num) (Nat.lt_succ_self k')
  rw [hk, hk']
  omega

/-- Witness for the amended claim C10 at a concrete state (capacity 8,
tracked peak 3 ≤ 4): the compaction yields capacity 4 < 8. -/
theorem claim_C10_witness :
    max c4state.max_size c4state.size ≤ c4state.capacity / 2 ∧
    (update_size c4state 1000007 1).capacity < c4state.capacity :=
  ⟨by decide,
    claim_C10_amended c4state 1000007 1 3 (by decide) (by decide) (by decide)
      (by decide) (by decide) (by decide) (by decide)⟩

end TransitEventBuffer

namespace FormatBufferPool

/-- Claim C7: `return_buffer(buffer)` on a Scratch Buffer Pool with a
borrowed buffer outstanding discards the buffer when its size is at most
10240 bytes (the storage is untouched, so the next `borrow_buffer()` that
reaches a still-empty slot allocates fresh), stores that exact buffer in
the slot when its size exceeds 10240 bytes (so the next `borrow_buffer()`
call that reaches that slot returns it unchanged), and advances
`reader_pos` by one in both cases. -/
theorem claim_C7_retention {β : Type} (bsize : β → Nat)
    (p : FormatBufferPool β) (b : β) (k : Nat)
    (hk : p.capacity = 2 ^ k) (hm : p.mask = p.capacity - 1)
    (hlen : p.storage.length = p.capacity)
    (hout : p.reader_pos ≠ p.writer_pos) :
    (return_buffer bsize p b).reader_pos = p.reader_pos + 1 ∧
    (bsize b ≤ 10240 → (return_buffer bsize p b).storage = p.storage) ∧
    (10240 < bsize b →
      (return_buffer bsize p b).storage.getD
        (p.reader_pos &&& p.mask) none = some b) ∧
    (∀ q : FormatBufferPool β, size q < q.capacity →
      q.storage.getD (q.writer_pos &&& q.mask) none = some b →
      (borrow_buffer q).1 = some b) ∧
    (∀ q : FormatBufferPool β, size q < q.capacity →
      q.storage.getD (q.writer_pos &&& q.mask) none = none →
      (borrow_buffer q).1 = none) := by
  refine ⟨rfl, ?_, ?_, ?_, ?_⟩
  · intro hsmall
    have : ¬ 10 * 1024 < bsize b := by omega
    simp [return_buffer, this]
  · intro hbig
    have hcond : 10 * 1024 < bsize b := by omega
    show (if 10 * 1024 < bsize b
        then p.storage.set (p.reader_pos &&& p.mask) (some b)
        else p.storage).getD (p.reader_pos &&& p.mask) none = some b
    rw [if_pos hcond]
    refine getD_set_self _ _ _ _ ?_
    rw [hm, hk, Nat.and_pow_two_sub_one_eq_mod, hlen, hk]
    exact Nat.mod_lt _ (Nat.pos_pow_of_pos k (by norm_num))
  · intro q hroom hslot
    have hne : ¬ q.capacity = size q := by omega
    simp only [borrow_buffer, if_neg hne]
    exact hslot
  · intro q hroom hslot
    have hne : ¬ q.capacity = size q := by omega
    simp only [borrow_buffer, if_neg hne]
    exact hslot

/-- Concrete pool for the C7 witness: capacity 4, one borrow
outstanding. -/
def c7pool : FormatBufferPool Nat :=
  { capacity := 4
    storage := [none, none, none, none]
    mask := 3
    reader_pos := 0
    writer_pos := 1 }

/-- Pool state whose next borrow reaches the slot that retained a
20000-byte buffer (the write cursor has wrapped around to slot 0). -/
def c7wrapped : FormatBufferPool Nat :=
  { capacity := 4
    storage := [some 20000, none, none, none]
    mask := 3
    reader_pos := 4
    writer_pos := 4 }

/-- Witness for claim C7: a retained 20000-byte buffer is stored and then
borrowed back unchanged once the write cursor reaches its slot; the
discard branch and the fresh-allocation branch are exercised too. -/
theorem claim_C7_witness :
    (c7pool.reader_pos ≠ c7pool.writer_pos ∧
      (10240 : Nat) < 20000 ∧ (64 : Nat) ≤ 10240) ∧
    ((return_buffer (fun n => n) c7pool 20000).reader_pos =
      c7pool.reader_pos + 1 ∧
      (return_buffer (fun n => n) c7pool 64).storage = c7pool.storage ∧
      (return_buffer (fun n => n) c7pool 20000).storage.getD
        (c7pool.reader_pos &&& c7pool.mask) none = some 20000 ∧
      (borrow_buffer c7wrapped).1 = some 20000 ∧
      (borrow_buffer c7pool).1 = none) := by
  have h := claim_C7_retention (fun n => n) c7pool 20000 2
    (by decide) (by decide) (by decide) (by decide)
  have h64 := claim_C7_retention (fun n => n) c7pool 64 2
    (by decide) (by decide) (by decide) (by decide)
  refine ⟨⟨by decide, by decide, by decide⟩,
    h.1, h64.2.1 (by decide), h.2.2.1 (by decide), ?_, ?_⟩
  · exact h.2.2.2.1 c7wrapped (by decide) (by decide)
  · exact h.2.2.2.2 c7pool (by decide) (by decide)

end FormatBufferPool

namespace TransitEventBuffer

/-- Counterexample to claim C9 as stated: `pop_front()` contains no
assertion — on a concretely empty buffer its debug-build semantics does
not fail, while the claim requires an assertion failure exactly when the
precondition (non-empty) is violated. -/
theorem claim_C9_cx :
    (mkBuffer Nat 4).empty = true ∧
    pop_front_checked (mkBuffer Nat 4) ≠ none ∧
    pop_front_checked (mkBuffer Nat 4) =
      some (pop_front (mkBuffer Nat 4)) := by
  refine ⟨?_, ?_, ?_⟩ <;> decide

/-- Claim C9 as amended: of the two named precondition violations, only
`FormatBufferPool::return_buffer` is guarded by a debug-time assertion,
which fails exactly when no borrowed buffer is outstanding
(`reader_pos == writer_pos`); `TransitEventBuffer::pop_front` contains no
assertion and unconditionally increments `reader_pos`, even on an empty
buffer. -/
theorem claim_C9_amended {β : Type} (bsize : β → Nat)
    (p : FormatBufferPool β) (b : β) (s : TransitEventBuffer α) :
    (FormatBufferPool.return_buffer_checked bsize p b = none ↔
      p.reader_pos = p.writer_pos) ∧
    pop_front_checked s = some (pop_front s) := by
  constructor
  · unfold FormatBufferPool.return_buffer_checked
    split
    · simp_all
    · simp_all
  · rfl

end TransitEventBuffer

end Quill
